import Mathlib

/-!
Verification of the ColorFocus Stroop-puzzle generator core.

Shallow embedding of backend/app/services/puzzle_generator.py,
backend/app/services/distribution_validator.py,
backend/app/constants/colors.py and backend/app/models/puzzle.py.

The Python RNG (random.Random) is modelled by an abstract oracle: a pair of
functions from (seed, call index) to the drawn value.  Every RNG-consuming
operation of the source (random(), randint, choice, shuffle) is embedded as a
deterministic function of the oracle and an explicit cursor state, so a
generator run is a pure function of (oracle, configuration).  random() values
are modelled as arbitrary rationals in [0,1); Python ints are ℕ/ℤ with
explicit mod where the source wraps.
-/

namespace ColorFocus

/-- The 8 canonical color tokens, in the fixed luminance order of
backend/app/constants/colors.py. -/
inductive ColorToken where
  | BLACK
  | BROWN
  | PURPLE
  | BLUE
  | GRAY
  | PINK
  | ORANGE
  | YELLOW
deriving DecidableEq, Repr

/-- list(ColorToken): iteration order is declaration order. -/
def allColorTokens : List ColorToken :=
  [.BLACK, .BROWN, .PURPLE, .BLUE, .GRAY, .PINK, .ORANGE, .YELLOW]

/-- token.value for the StrEnum. -/
def ColorToken.value : ColorToken → String
  | .BLACK => "BLACK"
  | .BROWN => "BROWN"
  | .PURPLE => "PURPLE"
  | .BLUE => "BLUE"
  | .GRAY => "GRAY"
  | .PINK => "PINK"
  | .ORANGE => "ORANGE"
  | .YELLOW => "YELLOW"

/-- backend/app/models/puzzle.py PuzzleCell. -/
structure PuzzleCell where
  word : ColorToken
  ink_color : ColorToken
deriving DecidableEq, Repr

/-- Default cell used to totalize in-range list indexing. -/
def dummyCell : PuzzleCell := ⟨.BLACK, .BLACK⟩

/-- backend/app/models/puzzle.py PuzzleMetadata.  congruence_percentage is a
Python float carried through unchanged; modelled as ℚ. -/
structure PuzzleMetadata where
  seed : ℕ
  rows : ℕ
  cols : ℕ
  congruence_percentage : ℚ
  color_count : ℕ
deriving DecidableEq, Repr

/-- backend/app/models/puzzle.py PuzzleGrid. -/
structure PuzzleGrid where
  cells : List (List PuzzleCell)
  metadata : PuzzleMetadata
deriving DecidableEq, Repr

/-! ### RNG model

random.Random(seed) is an oracle: ints s k is the value of the k-th integer
draw of the generator seeded with s, floats s k feeds the k-th random() call.
A fresh RNG for a seed starts its cursor at 0; each draw advances it. -/

structure Oracle where
  ints : ℕ → ℕ → ℕ
  floats : ℕ → ℕ → ℚ

structure RngState where
  seed : ℕ
  cursor : ℕ
deriving DecidableEq, Repr

/-- Totalizer for the random() model: an oracle value outside [0,1) is read
as 0, so a float draw ranges over exactly the rationals in [0,1). -/
def clamp01 (q : ℚ) : ℚ := if 0 ≤ q ∧ q < 1 then q else 0

/-- self._rng.random(): a value in [0,1). -/
def randFloat (o : Oracle) (st : RngState) : ℚ × RngState :=
  (clamp01 (o.floats st.seed st.cursor), ⟨st.seed, st.cursor + 1⟩)

/-- _randbelow(n): the k-th integer draw reduced below n.  All call sites
use n ≥ 1.  randint(0, m) is randBelow (m+1). -/
def randBelow (o : Oracle) (n : ℕ) (st : RngState) : ℕ × RngState :=
  (o.ints st.seed st.cursor % n, ⟨st.seed, st.cursor + 1⟩)

/-- self._rng.choice(seq): seq[randbelow(len(seq))]; raises on an empty
sequence, hence Option. -/
def choiceColor (o : Oracle) (l : List ColorToken) (st : RngState) :
    Option (ColorToken × RngState) :=
  match l with
  | [] => none
  | _ :: _ =>
      some (l.getD (o.ints st.seed st.cursor % l.length) .BLACK,
        ⟨st.seed, st.cursor + 1⟩)

/-- In-place swap of positions i and j of a Python list, as a pure update. -/
def swapL (l : List α) (i j : ℕ) : List α :=
  match l[i]?, l[j]? with
  | some a, some b => (l.set i b).set j a
  | _, _ => l

/-- random.shuffle inner loop: for i in reversed(range(1, n)):
j = randbelow(i+1); swap x[i] x[j].  The argument is the current i. -/
def shuffleGo (o : Oracle) : ℕ → List α → RngState → List α × RngState
  | 0, l, st => (l, st)
  | i + 1, l, st =>
      let (j, st1) := randBelow o (i + 2) st
      shuffleGo o i (swapL l (i + 1) j) st1

/-- self._rng.shuffle(x). -/
def shuffleL (o : Oracle) (l : List α) (st : RngState) : List α × RngState :=
  shuffleGo o (l.length - 1) l st

/-! ### Generator configuration (PuzzleGenerator.__init__) -/

/-- PuzzleGenerator.DEFAULT_COLOR_SUBSETS. -/
def DEFAULT_COLOR_SUBSETS : ℕ → List ColorToken
  | 2 => [.BLACK, .YELLOW]
  | 3 => [.BLACK, .BLUE, .YELLOW]
  | 4 => [.BLACK, .BLUE, .ORANGE, .YELLOW]
  | 5 => [.BLACK, .PURPLE, .BLUE, .ORANGE, .YELLOW]
  | 6 => [.BLACK, .PURPLE, .BLUE, .PINK, .ORANGE, .YELLOW]
  | 7 => [.BLACK, .BROWN, .PURPLE, .BLUE, .PINK, .ORANGE, .YELLOW]
  | 8 => allColorTokens
  | _ => []

/-- The attributes PuzzleGenerator.__init__ stores, for an explicitly supplied
seed.  color_count is clamped to [2,8]; congruence_percentage is stored as
given; validator bounds are derived from the clamped color count. -/
structure GenState where
  seed : ℕ
  congruence_percentage : ℚ
  color_count : ℕ
  colors : List ColorToken
  min_count : ℤ
  max_count : ℤ
deriving DecidableEq, Repr

def TOTAL_CELLS : ℕ := 64
def MAX_RETRIES : ℕ := 3

/-- PuzzleGenerator.__init__(seed, congruence_percentage, color_count).
The requested color count is a Python int (ℤ); max(2, min(8, k)) clamps it. -/
def initGen (seed : ℕ) (congruence_percentage : ℚ) (color_count : ℤ) :
    GenState :=
  let clamped : ℕ := (max 2 (min 8 color_count)).toNat
  let cells_per_color : ℕ := TOTAL_CELLS / clamped
  let tolerance : ℕ := max 2 (cells_per_color / 4)
  { seed := seed
    congruence_percentage := congruence_percentage
    color_count := clamped
    colors := DEFAULT_COLOR_SUBSETS clamped
    min_count := (cells_per_color : ℤ) - (tolerance : ℤ)
    max_count := (cells_per_color : ℤ) + (tolerance : ℤ) }

/-! ### Distribution validator (distribution_validator.py) -/

structure ValidationResult where
  is_valid : Bool
  issues : List String
deriving DecidableEq, Repr

/-- Counter lookup: color_counts.get(token, 0). -/
def countsGet (counts : List (ColorToken × ℕ)) (t : ColorToken) : ℕ :=
  (counts.lookup t).getD 0

/-- DistributionValidator.validate.  counts models the dict argument as an
association list; active models the Optional active_colors parameter. -/
def validate (min_count max_count : ℤ) (counts : List (ColorToken × ℕ))
    (active : Option (List ColorToken)) : ValidationResult :=
  let colors_to_check := active.getD allColorTokens
  let issues := colors_to_check.filterMap (fun token =>
    let count : ℤ := (countsGet counts token : ℕ)
    let v := token.value
    if count < min_count then
      some (v ++ " appears " ++ toString count ++ " times, below minimum "
        ++ toString min_count)
    else if count > max_count then
      some (v ++ " appears " ++ toString count ++ " times, above maximum "
        ++ toString max_count)
    else none)
  { is_valid := issues.length = 0, issues := issues }

/-! ### Generation pipeline (puzzle_generator.py) -/

/-- The ink multiset built by _create_ink_distribution before its shuffle:
for the i-th active token, cells_per_color + (1 if i < remainder else 0)
copies. -/
def inkMultiset (st : GenState) : List ColorToken :=
  let cells_per_color := TOTAL_CELLS / st.color_count
  let remainder := TOTAL_CELLS % st.color_count
  (st.colors.enum).flatMap (fun it =>
    List.replicate (cells_per_color + if it.1 < remainder then 1 else 0) it.2)

/-- PuzzleGenerator._create_ink_distribution: build the balanced multiset,
then shuffle it with the instance RNG. -/
def createInkDistribution (o : Oracle) (st : GenState) (rng : RngState) :
    List ColorToken × RngState :=
  shuffleL o (inkMultiset st) rng

/-- PuzzleGenerator._assign_words: for each ink draw a float; congruent when
it is < congruence_percentage, else a choice among the other active colors. -/
def assignWords (o : Oracle) (st : GenState) :
    List ColorToken → RngState → Option (List PuzzleCell × RngState)
  | [], rng => some ([], rng)
  | ink_color :: rest, rng =>
      let (u, rng1) := randFloat o rng
      if u < st.congruence_percentage then
        (assignWords o st rest rng1).map (fun cr =>
          (⟨ink_color, ink_color⟩ :: cr.1, cr.2))
      else
        let other_colors := st.colors.filter (fun c => c ≠ ink_color)
        match choiceColor o other_colors rng1 with
        | none => none
        | some (word, rng2) =>
            (assignWords o st rest rng2).map (fun cr =>
              (⟨word, ink_color⟩ :: cr.1, cr.2))

/-- PuzzleGenerator._get_adjacent_indices. -/
def getAdjacentIndices (flat_index grid_size : ℕ) : List ℕ :=
  let row := flat_index / grid_size
  let col := flat_index % grid_size
  (if 0 < row then [flat_index - grid_size] else []) ++
  (if row < grid_size - 1 then [flat_index + grid_size] else []) ++
  (if 0 < col then [flat_index - 1] else []) ++
  (if col < grid_size - 1 then [flat_index + 1] else [])

/-- PuzzleGenerator._interference_at. -/
def interferenceAt (cells : List PuzzleCell) (idx grid_size : ℕ) : ℕ :=
  let cell := cells.getD idx dummyCell
  (getAdjacentIndices idx grid_size).foldl
    (fun count adj_idx =>
      if adj_idx < cells.length then
        let adj_cell := cells.getD adj_idx dummyCell
        count + (if cell.ink_color = adj_cell.word then 1 else 0)
              + (if adj_cell.ink_color = cell.word then 1 else 0)
      else count) 0

/-- Inner sampling loop of _optimize_stroop_interference: scan a number of
random index pairs, tracking the best strictly improving swap.  Gains are
Python ints (ℤ). -/
def pairScan (o : Oracle) (cells : List PuzzleCell) (grid_size : ℕ) :
    ℕ → RngState → ℤ × Option (ℕ × ℕ) → (ℤ × Option (ℕ × ℕ)) × RngState
  | 0, rng, best => (best, rng)
  | n + 1, rng, best =>
      let ir := randBelow o cells.length rng
      let jr := randBelow o cells.length ir.2
      if ir.1 = jr.1 then pairScan o cells grid_size n jr.2 best
      else
        let current : ℤ :=
          (interferenceAt cells ir.1 grid_size : ℤ)
            + (interferenceAt cells jr.1 grid_size : ℤ)
        let swapped : ℤ :=
          (interferenceAt (swapL cells ir.1 jr.1) ir.1 grid_size : ℤ)
            + (interferenceAt (swapL cells ir.1 jr.1) jr.1 grid_size : ℤ)
        let gain := swapped - current
        if gain > best.1 then
          pairScan o cells grid_size n jr.2 (gain, some (ir.1, jr.1))
        else pairScan o cells grid_size n jr.2 best

/-- Outer loop of _optimize_stroop_interference: up to max_swaps rounds, each
applying the best sampled swap when its gain is positive, else stopping. -/
def optimizeGo (o : Oracle) (grid_size : ℕ) :
    ℕ → List PuzzleCell → RngState → List PuzzleCell × RngState
  | 0, cells, rng => (cells, rng)
  | n + 1, cells, rng =>
      match pairScan o cells grid_size (min 100 (cells.length * 2)) rng
          (0, none) with
      | ((best_gain, some ij), rng1) =>
          if best_gain > 0 then
            optimizeGo o grid_size n (swapL cells ij.1 ij.2) rng1
          else (cells, rng1)
      | ((_, none), rng1) => (cells, rng1)

/-- PuzzleGenerator._optimize_stroop_interference with the default
max_swaps = 50.  The source copies its input list before mutating. -/
def optimizeStroopInterference (o : Oracle) (cells : List PuzzleCell)
    (grid_size : ℕ) (rng : RngState) : List PuzzleCell × RngState :=
  optimizeGo o grid_size 50 cells rng

/-- PuzzleGenerator._reshape_to_grid: 8 row slices of 8. -/
def reshapeToGrid (cells_flat : List PuzzleCell) : List (List PuzzleCell) :=
  (List.range 8).map (fun row_idx => ((cells_flat.drop (row_idx * 8)).take 8))

/-- PuzzleGenerator._count_ink_colors: Counter over the ink colors of the
grid in row-major order, as an association list keyed by the distinct tokens
encountered. -/
def countInkColors (cells_2d : List (List PuzzleCell)) :
    List (ColorToken × ℕ) :=
  let ink_colors := (cells_2d.map (fun row => row.map (·.ink_color))).flatten
  ink_colors.dedup.map (fun t => (t, ink_colors.count t))

/-- PuzzleGenerator._derive_new_seed. -/
def deriveNewSeed (original_seed attempt : ℕ) : ℕ :=
  (original_seed * 31 + attempt) % 2 ^ 31

/-- One attempt of PuzzleGenerator.generate: a fresh RNG from the current
seed, then ink distribution, word assignment, shuffle, optimization and
reshape.  none models the (unreached) exception path of choice on an empty
list. -/
def attemptCells (o : Oracle) (st : GenState) (current_seed : ℕ) :
    Option (List (List PuzzleCell)) :=
  let rng0 : RngState := ⟨current_seed, 0⟩
  let cr := createInkDistribution o st rng0
  match assignWords o st cr.1 cr.2 with
  | none => none
  | some cellsr =>
      let sr := shuffleL o cellsr.1 cellsr.2
      some (reshapeToGrid (optimizeStroopInterference o sr.1 8 sr.2).1)

/-- The metadata generate emits: always the caller-facing seed. -/
def mkMetadata (st : GenState) : PuzzleMetadata :=
  { seed := st.seed
    rows := 8
    cols := 8
    congruence_percentage := st.congruence_percentage
    color_count := st.color_count }

/-- The retry loop of PuzzleGenerator.generate.  fuel counts the remaining
iterations of while attempts < MAX_RETRIES; last carries the cells of the
most recent attempt for the exhaustion return. -/
def genLoop (o : Oracle) (st : GenState) (min_count max_count : ℤ) :
    ℕ → ℕ → Option (List (List PuzzleCell)) → Option PuzzleGrid
  | 0, _, last => last.map (fun cells_2d => ⟨cells_2d, mkMetadata st⟩)
  | fuel + 1, current_seed, _ =>
      match attemptCells o st current_seed with
      | none => none
      | some cells_2d =>
          let ink_counts := countInkColors cells_2d
          let result := validate min_count max_count ink_counts (some st.colors)
          if result.is_valid then some ⟨cells_2d, mkMetadata st⟩
          else
            genLoop o st min_count max_count fuel
              (deriveNewSeed current_seed (MAX_RETRIES - fuel))
              (some cells_2d)

/-- PuzzleGenerator.generate with the validator bounds as parameters (they
are attributes set by __init__ and read by the loop). -/
def generateWith (o : Oracle) (min_count max_count : ℤ) (st : GenState) :
    Option PuzzleGrid :=
  genLoop o st min_count max_count MAX_RETRIES st.seed none

/-- PuzzleGenerator.generate. -/
def generate (o : Oracle) (st : GenState) : Option PuzzleGrid :=
  generateWith o st.min_count st.max_count st

/-- Global interference objective of the specification: the sum over all flat
indices of _interference_at. -/
def globalInterference (cells : List PuzzleCell) (grid_size : ℕ) : ℕ :=
  ∑ i in Finset.range cells.length, interferenceAt cells i grid_size

end ColorFocus

namespace ColorFocus

/-! ### Basic facts about the swap and shuffle primitives -/

theorem swapL_length (l : List α) (i j : ℕ) : (swapL l i j).length = l.length := by
  unfold swapL
  rcases hi : l[i]? with _ | a <;> rcases hj : l[j]? with _ | b <;> simp

theorem count_swapL [DecidableEq α] (l : List α) (i j : ℕ) (a : α) :
    (swapL l i j).count a = l.count a := by
  unfold swapL
  rcases hi : l[i]? with _ | x <;> rcases hj : l[j]? with _ | y <;> try rfl
  have hil : i < l.length := by
    by_contra h
    rw [List.getElem?_eq_none (by omega)] at hi
    exact Option.noConfusion hi
  have hjl : j < l.length := by
    by_contra h
    rw [List.getElem?_eq_none (by omega)] at hj
    exact Option.noConfusion hj
  have hx : l[i] = x := by rw [List.getElem?_eq_getElem hil] at hi; exact Option.some.inj hi
  have hy : l[j] = y := by rw [List.getElem?_eq_getElem hjl] at hj; exact Option.some.inj hj
  have h1 := List.count_set y a l i hil
  have h2 := List.count_set x a (l.set i y) j (by simpa using hjl)
  simp only [List.getElem_set, hy, ite_self] at h2
  show List.count a ((l.set i y).set j x) = List.count a l
  rw [hx] at h1
  simp only [beq_iff_eq] at h1 h2
  have hue : (if x = a then 1 else 0) ≤ List.count a l := by
    split
    · next e => exact List.count_pos_iff.mpr ((hx.trans e) ▸ List.getElem_mem hil)
    · omega
  have hye : (if y = a then 1 else 0) ≤ List.count a (l.set i y) := by
    split
    · next e =>
        refine List.count_pos_iff.mpr ?_
        have hmem := List.getElem_mem (l := l.set i y) (n := i) (by simpa using hil)
        rw [List.getElem_set_self (by simpa using hil)] at hmem
        exact e ▸ hmem
    · omega
  omega

theorem swapL_perm [DecidableEq α] (l : List α) (i j : ℕ) : (swapL l i j).Perm l :=
  List.perm_iff_count.mpr fun a => count_swapL l i j a

theorem shuffleGo_perm [DecidableEq α] (o : Oracle) :
    ∀ (n : ℕ) (l : List α) (st : RngState), (shuffleGo o n l st).1.Perm l
  | 0, _, _ => List.Perm.refl _
  | n + 1, l, st => by
      unfold shuffleGo
      exact (shuffleGo_perm o n _ _).trans (swapL_perm l (n + 1) _)

theorem shuffleL_perm [DecidableEq α] (o : Oracle) (l : List α) (st : RngState) :
    (shuffleL o l st).1.Perm l :=
  shuffleGo_perm o _ l st

end ColorFocus

namespace ColorFocus

theorem swapL_getD_of_ne (l : List α) {i j x : ℕ} (hxi : x ≠ i) (hxj : x ≠ j)
    (d : α) : (swapL l i j).getD x d = l.getD x d := by
  unfold swapL
  rcases hi : l[i]? with _ | a <;> rcases hj : l[j]? with _ | b <;> try rfl
  rw [List.getD_eq_getElem?_getD, List.getD_eq_getElem?_getD,
    List.getElem?_set_ne (Ne.symm hxj), List.getElem?_set_ne (Ne.symm hxi)]

theorem swapL_getD_fst (l : List α) {i j : ℕ} (hi : i < l.length)
    (hj : j < l.length) (d : α) : (swapL l i j).getD i d = l.getD j d := by
  unfold swapL
  rw [List.getElem?_eq_getElem hi, List.getElem?_eq_getElem hj]
  show ((l.set i l[j]).set j l[i]).getD i d = l.getD j d
  rcases eq_or_ne j i with rfl | hne
  · rw [List.getD_eq_getElem?_getD, List.getElem?_set_self (by simpa using hi),
      Option.getD_some, List.getD_eq_getElem?_getD, List.getElem?_eq_getElem hi,
      Option.getD_some]
  · rw [List.getD_eq_getElem?_getD, List.getElem?_set_ne hne,
      List.getElem?_set_self (by simpa using hi), Option.getD_some,
      List.getD_eq_getElem?_getD, List.getElem?_eq_getElem hj, Option.getD_some]

theorem swapL_getD_snd (l : List α) {i j : ℕ} (hi : i < l.length)
    (hj : j < l.length) (d : α) : (swapL l i j).getD j d = l.getD i d := by
  unfold swapL
  rw [List.getElem?_eq_getElem hi, List.getElem?_eq_getElem hj]
  show ((l.set i l[j]).set j l[i]).getD j d = l.getD i d
  rw [List.getD_eq_getElem?_getD, List.getElem?_set_self (by simpa using hj),
    Option.getD_some, List.getD_eq_getElem?_getD, List.getElem?_eq_getElem hi,
    Option.getD_some]

theorem choiceColor_isSome (o : Oracle) {l : List ColorToken} (h : l ≠ [])
    (st : RngState) : (choiceColor o l st).isSome = true := by
  unfold choiceColor
  cases l with
  | nil => exact absurd rfl h
  | cons x xs => rfl

theorem choiceColor_mem (o : Oracle) {l : List ColorToken} {st st' : RngState}
    {w : ColorToken} (h : choiceColor o l st = some (w, st')) : w ∈ l := by
  unfold choiceColor at h
  cases l with
  | nil => exact Option.noConfusion h
  | cons x xs =>
      have hw : (x :: xs).getD (o.ints st.seed st.cursor % (x :: xs).length)
          .BLACK = w := congrArg Prod.fst (Option.some.inj h)
      have hlt : o.ints st.seed st.cursor % (x :: xs).length <
          (x :: xs).length := Nat.mod_lt _ (by simp)
      rw [List.getD_eq_getElem?_getD, List.getElem?_eq_getElem hlt,
        Option.getD_some] at hw
      exact hw ▸ List.getElem_mem hlt

theorem assignWords_map_ink (o : Oracle) (st : GenState) :
    ∀ (inks : List ColorToken) (rng : RngState) (res : List PuzzleCell × RngState),
      assignWords o st inks rng = some res →
      res.1.map (·.ink_color) = inks := by
  intro inks
  induction inks with
  | nil =>
      intro rng res h
      simp only [assignWords, Option.some.injEq] at h
      rw [← h]
      rfl
  | cons ink rest ih =>
      intro rng res h
      simp only [assignWords] at h
      split at h
      · rcases hrec : assignWords o st rest (randFloat o rng).2 with _ | cr
        · rw [hrec] at h; exact Option.noConfusion h
        · rw [hrec] at h
          simp only [Option.map_some', Option.some.injEq] at h
          rw [← h]
          simp [ih _ _ hrec]
      · rcases hch : choiceColor o (st.colors.filter (fun c => c ≠ ink))
            (randFloat o rng).2 with _ | ⟨word, rng2⟩
        · rw [hch] at h; exact Option.noConfusion h
        · rw [hch] at h
          dsimp only at h
          rcases hrec : assignWords o st rest rng2 with _ | cr
          · rw [hrec] at h; exact Option.noConfusion h
          · rw [hrec] at h
            simp only [Option.map_some', Option.some.injEq] at h
            rw [← h]
            simp [ih _ _ hrec]

theorem assignWords_isSome (o : Oracle) (st : GenState)
    (hc : ∀ t : ColorToken, st.colors.filter (fun c => c ≠ t) ≠ []) :
    ∀ (inks : List ColorToken) (rng : RngState),
      (assignWords o st inks rng).isSome = true := by
  intro inks
  induction inks with
  | nil => intro rng; rfl
  | cons ink rest ih =>
      intro rng
      simp only [assignWords]
      split
      · simpa using ih (randFloat o rng).2
      · rcases hch : choiceColor o (st.colors.filter (fun c => c ≠ ink))
            (randFloat o rng).2 with _ | ⟨word, rng2⟩
        · have hs := choiceColor_isSome o (hc ink) (randFloat o rng).2
          rw [hch] at hs
          simp at hs
        · dsimp only
          simpa using ih rng2

end ColorFocus

namespace ColorFocus

theorem optimizeGo_perm (o : Oracle) (g : ℕ) :
    ∀ (n : ℕ) (cells : List PuzzleCell) (rng : RngState),
      ((optimizeGo o g n cells rng).1).Perm cells := by
  intro n
  induction n with
  | zero => intro cells rng; exact List.Perm.refl _
  | succ n ih =>
      intro cells rng
      unfold optimizeGo
      split
      · split
        · exact (ih _ _).trans (swapL_perm cells _ _)
        · exact List.Perm.refl _
      · exact List.Perm.refl _

theorem optimize_perm (o : Oracle) (cells : List PuzzleCell) (g : ℕ)
    (rng : RngState) :
    ((optimizeStroopInterference o cells g rng).1).Perm cells :=
  optimizeGo_perm o g 50 cells rng

theorem chunks_flatten :
    ∀ (n : ℕ) (l : List α), l.length = n * 8 →
      ((List.range n).map (fun r => ((l.drop (r * 8)).take 8))).flatten = l := by
  intro n
  induction n with
  | zero =>
      intro l hl
      rw [List.length_eq_zero] at hl
      simp [hl]
  | succ n ih =>
      intro l hl
      rw [List.range_succ_eq_map]
      simp only [List.map_cons, List.map_map, List.flatten_cons, Nat.zero_mul,
        List.drop_zero]
      have hstep : ((List.range n).map (fun r => (l.drop (Nat.succ r * 8)).take 8))
          = ((List.range n).map (fun r => (((l.drop 8).drop (r * 8)).take 8))) := by
        refine List.map_congr_left fun r _ => ?_
        rw [List.drop_drop]
        have he : Nat.succ r * 8 = 8 + r * 8 := by omega
        rw [he]
      have hlen : (l.drop 8).length = n * 8 := by
        rw [List.length_drop, hl]
        omega
      have htail := ih (l.drop 8) hlen
      have hcm : ((fun r => List.take 8 (List.drop (r * 8) l)) ∘ Nat.succ)
          = fun r => List.take 8 (List.drop (Nat.succ r * 8) l) := rfl
      rw [hcm, hstep, htail, List.take_append_drop]

theorem reshape_flatten (l : List PuzzleCell) (h : l.length = 64) :
    (reshapeToGrid l).flatten = l :=
  chunks_flatten 8 l (by omega)

theorem lookup_map_self {β : Type _} (f : ColorToken → β) :
    ∀ (xs : List ColorToken) (t : ColorToken), t ∈ xs →
      (xs.map (fun x => (x, f x))).lookup t = some (f t) := by
  intro xs
  induction xs with
  | nil => intro t h; exact absurd h (List.not_mem_nil t)
  | cons x xs ih =>
      intro t h
      simp only [List.map_cons]
      by_cases he : t = x
      · subst he
        exact List.lookup_cons_self
      · rw [List.lookup_cons, show (t == x) = false from by simpa using he]
        refine ih t ?_
        rcases List.mem_cons.mp h with h | h
        · exact absurd h he
        · exact h

theorem lookup_map_self_none {β : Type _} (f : ColorToken → β) :
    ∀ (xs : List ColorToken) (t : ColorToken), t ∉ xs →
      (xs.map (fun x => (x, f x))).lookup t = none := by
  intro xs
  induction xs with
  | nil => intro t _; rfl
  | cons x xs ih =>
      intro t h
      simp only [List.map_cons]
      have he : t ≠ x := fun he => h (he ▸ List.mem_cons_self x xs)
      rw [List.lookup_cons, show (t == x) = false from by simpa using he]
      exact ih t (fun hm => h (List.mem_cons_of_mem x hm))

theorem countsGet_countInkColors (cells_2d : List (List PuzzleCell))
    (t : ColorToken) :
    countsGet (countInkColors cells_2d) t =
      ((cells_2d.map (fun row => row.map (·.ink_color))).flatten).count t := by
  unfold countInkColors countsGet
  by_cases hmem :
      t ∈ ((cells_2d.map (fun row => row.map (·.ink_color))).flatten).dedup
  · rw [lookup_map_self _ _ t hmem]
    rfl
  · rw [lookup_map_self_none _ _ t hmem]
    have : t ∉ (cells_2d.map (fun row => row.map (·.ink_color))).flatten :=
      fun h => hmem (List.mem_dedup.mpr h)
    simp [List.count_eq_zero.mpr this]

end ColorFocus

namespace ColorFocus

theorem length_filterMap_eq_length_filter {α β : Type _} (f : α → Option β)
    (p : α → Bool) (h : ∀ a, (f a).isSome = p a) :
    ∀ l : List α, (l.filterMap f).length = (l.filter p).length := by
  intro l
  induction l with
  | nil => rfl
  | cons x xs ih =>
      rw [List.filterMap_cons, List.filter_cons]
      rcases hfx : f x with _ | b
      · have hp : p x = false := by rw [← h x, hfx]; rfl
        rw [hp]
        simpa using ih
      · have hp : p x = true := by rw [← h x, hfx]; rfl
        rw [hp]
        simpa using ih

/-- The Bool test matching one issue emission of validate. -/
def outOfBounds (min_count max_count : ℤ) (counts : List (ColorToken × ℕ))
    (t : ColorToken) : Bool :=
  decide ((countsGet counts t : ℤ) < min_count) ||
    decide (max_count < (countsGet counts t : ℤ))

theorem validate_issues_length (min_count max_count : ℤ)
    (counts : List (ColorToken × ℕ)) (active : List ColorToken) :
    (validate min_count max_count counts (some active)).issues.length =
      (active.filter (outOfBounds min_count max_count counts)).length := by
  show (active.filterMap _).length = _
  refine length_filterMap_eq_length_filter _ _ (fun a => ?_) active
  unfold outOfBounds
  dsimp only
  split
  · next h1 => simp [h1]
  · next h1 =>
      split
      · next h2 => simp [h2]
      · next h2 => simp [h1, h2]

theorem validate_is_valid_iff (min_count max_count : ℤ)
    (counts : List (ColorToken × ℕ)) (active : List ColorToken) :
    (validate min_count max_count counts (some active)).is_valid = true ↔
      ∀ t ∈ active, min_count ≤ (countsGet counts t : ℤ) ∧
        (countsGet counts t : ℤ) ≤ max_count := by
  have hiv : (validate min_count max_count counts (some active)).is_valid =
      decide ((validate min_count max_count counts
        (some active)).issues.length = 0) := rfl
  rw [hiv, decide_eq_true_eq,
    validate_issues_length min_count max_count counts active,
    List.length_eq_zero, List.filter_eq_nil_iff]
  refine forall_congr' fun t => forall_congr' fun ht => ?_
  unfold outOfBounds
  simp only [Bool.or_eq_true, decide_eq_true_eq, not_or]
  omega

theorem initGen_cc_lower (s : ℕ) (p : ℚ) (k : ℤ) :
    2 ≤ (initGen s p k).color_count := by
  show 2 ≤ (max 2 (min 8 k)).toNat
  omega

theorem initGen_cc_upper (s : ℕ) (p : ℚ) (k : ℤ) :
    (initGen s p k).color_count ≤ 8 := by
  show (max 2 (min 8 k)).toNat ≤ 8
  omega

theorem initGen_colors (s : ℕ) (p : ℚ) (k : ℤ) :
    (initGen s p k).colors =
      DEFAULT_COLOR_SUBSETS (initGen s p k).color_count := rfl

theorem initGen_seed (s : ℕ) (p : ℚ) (k : ℤ) : (initGen s p k).seed = s := rfl

end ColorFocus

namespace ColorFocus

deriving instance Fintype for ColorToken

/-- The balanced ink multiset as a function of the clamped color count. -/
def inkAt (n : ℕ) : List ColorToken :=
  ((DEFAULT_COLOR_SUBSETS n).enum).flatMap (fun it =>
    List.replicate (64 / n + if it.1 < 64 % n then 1 else 0) it.2)

theorem inkMultiset_initGen (s : ℕ) (p : ℚ) (k : ℤ) :
    inkMultiset (initGen s p k) = inkAt (initGen s p k).color_count := rfl

/-- Bundled concrete facts about the 7 possible clamped color counts,
established by evaluation. -/
theorem perK_facts (n : ℕ) (h2 : 2 ≤ n) (h8 : n ≤ 8) :
    (DEFAULT_COLOR_SUBSETS n).length = n ∧
    (inkAt n).length = 64 ∧
    (∀ t : ColorToken,
      (DEFAULT_COLOR_SUBSETS n).filter (fun c => c ≠ t) ≠ []) ∧
    (∀ i, i < n →
      (inkAt n).count ((DEFAULT_COLOR_SUBSETS n).getD i .BLACK) =
        64 / n + if i < 64 % n then 1 else 0) ∧
    (∀ t ∈ DEFAULT_COLOR_SUBSETS n,
      ((64 / n : ℕ) : ℤ) - ((max 2 ((64 / n) / 4) : ℕ) : ℤ) ≤
          ((inkAt n).count t : ℤ) ∧
        ((inkAt n).count t : ℤ) ≤
          ((64 / n : ℕ) : ℤ) + ((max 2 ((64 / n) / 4) : ℕ) : ℤ)) := by
  interval_cases n <;> exact ⟨by decide, by decide, by decide, by decide, by decide⟩

end ColorFocus

namespace ColorFocus

theorem clamp01_nonneg (q : ℚ) : 0 ≤ clamp01 q := by
  unfold clamp01
  split
  · next h => exact h.1
  · exact le_refl 0

theorem clamp01_lt_one (q : ℚ) : clamp01 q < 1 := by
  unfold clamp01
  split
  · next h => exact h.2
  · norm_num

theorem assignWords_mem_incongruent (o : Oracle) (st : GenState)
    (hp : st.congruence_percentage ≤ 0) :
    ∀ (inks : List ColorToken) (rng : RngState) (res : List PuzzleCell × RngState),
      assignWords o st inks rng = some res →
      ∀ c ∈ res.1, c.word ≠ c.ink_color := by
  intro inks
  induction inks with
  | nil =>
      intro rng res h
      simp only [assignWords, Option.some.injEq] at h
      rw [← h]
      intro c hc
      exact absurd hc (List.not_mem_nil c)
  | cons ink rest ih =>
      intro rng res h
      simp only [assignWords] at h
      split at h
      · next hu =>
          exact absurd hu (not_lt.mpr (le_trans hp (clamp01_nonneg _)))
      · rcases hch : choiceColor o (st.colors.filter (fun c => c ≠ ink))
            (randFloat o rng).2 with _ | ⟨word, rng2⟩
        · rw [hch] at h; exact Option.noConfusion h
        · rw [hch] at h
          dsimp only at h
          rcases hrec : assignWords o st rest rng2 with _ | cr
          · rw [hrec] at h; exact Option.noConfusion h
          · rw [hrec] at h
            simp only [Option.map_some', Option.some.injEq] at h
            rw [← h]
            intro c hc
            rcases List.mem_cons.mp hc with hc | hc
            · have hwm := choiceColor_mem o hch
              rw [List.mem_filter] at hwm
              have : word ≠ ink := by simpa using hwm.2
              rw [hc]
              exact this
            · exact ih _ _ hrec c hc

theorem assignWords_mem_congruent (o : Oracle) (st : GenState)
    (hp : 1 ≤ st.congruence_percentage) :
    ∀ (inks : List ColorToken) (rng : RngState) (res : List PuzzleCell × RngState),
      assignWords o st inks rng = some res →
      ∀ c ∈ res.1, c.word = c.ink_color := by
  intro inks
  induction inks with
  | nil =>
      intro rng res h
      simp only [assignWords, Option.some.injEq] at h
      rw [← h]
      intro c hc
      exact absurd hc (List.not_mem_nil c)
  | cons ink rest ih =>
      intro rng res h
      simp only [assignWords] at h
      split at h
      · rcases hrec : assignWords o st rest (randFloat o rng).2 with _ | cr
        · rw [hrec] at h; exact Option.noConfusion h
        · rw [hrec] at h
          simp only [Option.map_some', Option.some.injEq] at h
          rw [← h]
          intro c hc
          rcases List.mem_cons.mp hc with hc | hc
          · rw [hc]
          · exact ih _ _ hrec c hc
      · next hu =>
          exact absurd (lt_of_lt_of_le (clamp01_lt_one _) hp) hu

theorem initGen_filter_ne (s : ℕ) (p : ℚ) (k : ℤ) :
    ∀ t : ColorToken,
      (initGen s p k).colors.filter (fun c => c ≠ t) ≠ [] := by
  have h := perK_facts (initGen s p k).color_count
    (initGen_cc_lower s p k) (initGen_cc_upper s p k)
  rw [initGen_colors]
  exact h.2.2.1

theorem attempt_master (o : Oracle) (st : GenState)
    (hc : ∀ t : ColorToken, st.colors.filter (fun c => c ≠ t) ≠ []) (seed : ℕ) :
    ∃ (flat cells0 : List PuzzleCell),
      attemptCells o st seed = some (reshapeToGrid flat) ∧
      flat.Perm cells0 ∧
      cells0.map (·.ink_color) = (createInkDistribution o st ⟨seed, 0⟩).1 ∧
      (∃ cellsr : List PuzzleCell × RngState,
        assignWords o st (createInkDistribution o st ⟨seed, 0⟩).1
          (createInkDistribution o st ⟨seed, 0⟩).2 = some cellsr ∧
        cellsr.1 = cells0) := by
  have hs := assignWords_isSome o st hc (createInkDistribution o st ⟨seed, 0⟩).1
    (createInkDistribution o st ⟨seed, 0⟩).2
  rcases ha : assignWords o st (createInkDistribution o st ⟨seed, 0⟩).1
      (createInkDistribution o st ⟨seed, 0⟩).2 with _ | cellsr
  · rw [ha] at hs; simp at hs
  · refine ⟨(optimizeStroopInterference o
        (shuffleL o cellsr.1 cellsr.2).1 8
        (shuffleL o cellsr.1 cellsr.2).2).1, cellsr.1, ?_, ?_, ?_, ?_⟩
    · show (match assignWords o st (createInkDistribution o st ⟨seed, 0⟩).1
          (createInkDistribution o st ⟨seed, 0⟩).2 with
        | none => none
        | some cellsr =>
            some (reshapeToGrid (optimizeStroopInterference o
              (shuffleL o cellsr.1 cellsr.2).1 8
              (shuffleL o cellsr.1 cellsr.2).2).1)) = _
      rw [ha]
    · exact (optimize_perm o _ 8 _).trans (shuffleL_perm o cellsr.1 cellsr.2)
    · exact assignWords_map_ink o st _ _ cellsr ha
    · exact ⟨cellsr, rfl, rfl⟩

end ColorFocus

namespace ColorFocus

/-- On every attempt, the ink counts of the produced 2D grid agree exactly
with the balanced multiset built by _create_ink_distribution: word
assignment, both shuffles and the optimizer move cells wholesale. -/
theorem attempt_counts (o : Oracle) (s : ℕ) (p : ℚ) (k : ℤ) (seed : ℕ) :
    ∃ flat : List PuzzleCell,
      attemptCells o (initGen s p k) seed = some (reshapeToGrid flat) ∧
      flat.length = 64 ∧
      ∀ t : ColorToken,
        countsGet (countInkColors (reshapeToGrid flat)) t =
          (inkAt (initGen s p k).color_count).count t := by
  obtain ⟨flat, cells0, hat, hperm, hmap, _⟩ :=
    attempt_master o (initGen s p k) (initGen_filter_ne s p k) seed
  have hinkperm : ((createInkDistribution o (initGen s p k) ⟨seed, 0⟩).1).Perm
      (inkAt (initGen s p k).color_count) := by
    rw [← inkMultiset_initGen s p k]
    exact shuffleL_perm o _ _
  have hK := perK_facts (initGen s p k).color_count
    (initGen_cc_lower s p k) (initGen_cc_upper s p k)
  have hlen : flat.length = 64 := by
    have h1 := hperm.length_eq
    have h2 : cells0.length = (createInkDistribution o (initGen s p k)
        ⟨seed, 0⟩).1.length := by
      rw [← hmap, List.length_map]
    have h3 := hinkperm.length_eq
    have h4 := hK.2.1
    omega
  refine ⟨flat, hat, hlen, fun t => ?_⟩
  rw [countsGet_countInkColors, ← List.map_flatten, reshape_flatten flat hlen]
  have c1 : (flat.map (·.ink_color)).count t
      = (cells0.map (·.ink_color)).count t :=
    (hperm.map (·.ink_color)).count_eq t
  rw [c1, hmap]
  exact hinkperm.count_eq t

/-- Every attempt of a generator built by __init__ passes the distribution
validator: each active token count is base or base + 1 and the tolerance is
at least 2. -/
theorem attempt_valid (o : Oracle) (s : ℕ) (p : ℚ) (k : ℤ) (seed : ℕ)
    {c2 : List (List PuzzleCell)}
    (h : attemptCells o (initGen s p k) seed = some c2) :
    (validate (initGen s p k).min_count (initGen s p k).max_count
      (countInkColors c2) (some (initGen s p k).colors)).is_valid = true := by
  obtain ⟨flat, hat, _, hcnt⟩ := attempt_counts o s p k seed
  rw [hat] at h
  have hc2 : c2 = reshapeToGrid flat := (Option.some.inj h).symm
  subst hc2
  rw [validate_is_valid_iff]
  intro t ht
  rw [hcnt t]
  have hK := perK_facts (initGen s p k).color_count
    (initGen_cc_lower s p k) (initGen_cc_upper s p k)
  have hb := hK.2.2.2.2 t (by rw [initGen_colors] at ht; exact ht)
  exact hb

end ColorFocus

namespace ColorFocus

theorem genLoop_succ (o : Oracle) (st : GenState) (minc maxc : ℤ)
    (fuel current_seed : ℕ) (last : Option (List (List PuzzleCell))) :
    genLoop o st minc maxc (fuel + 1) current_seed last =
      match attemptCells o st current_seed with
      | none => none
      | some cells_2d =>
          if (validate minc maxc (countInkColors cells_2d)
              (some st.colors)).is_valid
          then some ⟨cells_2d, mkMetadata st⟩
          else genLoop o st minc maxc fuel
            (deriveNewSeed current_seed (MAX_RETRIES - fuel))
            (some cells_2d) := rfl

/-- generate returns the first attempt of the caller seed: the validator
accepts every attempt of an __init__-configured generator. -/
theorem generate_first (o : Oracle) (s : ℕ) (p : ℚ) (k : ℤ) :
    generate o (initGen s p k)
      = (attemptCells o (initGen s p k) s).map
          (fun c2 => ⟨c2, mkMetadata (initGen s p k)⟩) := by
  obtain ⟨flat, hat, hlen, hcnt⟩ := attempt_counts o s p k s
  have hval := attempt_valid o s p k s hat
  unfold generate generateWith
  rw [show MAX_RETRIES = 2 + 1 from rfl, initGen_seed, genLoop_succ, hat]
  dsimp only
  rw [hval]
  simp

end ColorFocus

namespace ColorFocus

/-- Property transfer from word assignment to the final flat cell list of an
attempt: the shuffles and the optimizer move whole cells. -/
theorem attempt_mem_prop (o : Oracle) (s : ℕ) (p : ℚ) (k : ℤ) (seed : ℕ)
    (P : PuzzleCell → Prop)
    (hP : ∀ (inks : List ColorToken) (rng : RngState)
      (res : List PuzzleCell × RngState),
      assignWords o (initGen s p k) inks rng = some res → ∀ c ∈ res.1, P c) :
    ∃ flat : List PuzzleCell,
      attemptCells o (initGen s p k) seed = some (reshapeToGrid flat) ∧
      flat.length = 64 ∧ ∀ c ∈ flat, P c := by
  obtain ⟨flat, cells0, hat, hperm, hmap, cellsr, ha, hc0⟩ :=
    attempt_master o (initGen s p k) (initGen_filter_ne s p k) seed
  have hinkperm : ((createInkDistribution o (initGen s p k) ⟨seed, 0⟩).1).Perm
      (inkAt (initGen s p k).color_count) := by
    rw [← inkMultiset_initGen s p k]
    exact shuffleL_perm o _ _
  have hK := perK_facts (initGen s p k).color_count
    (initGen_cc_lower s p k) (initGen_cc_upper s p k)
  have hlen : flat.length = 64 := by
    have h1 := hperm.length_eq
    have h2 : cells0.length = (createInkDistribution o (initGen s p k)
        ⟨seed, 0⟩).1.length := by
      rw [← hmap, List.length_map]
    have h3 := hinkperm.length_eq
    have h4 := hK.2.1
    omega
  refine ⟨flat, hat, hlen, fun c hc => ?_⟩
  refine hP _ _ cellsr ha c ?_
  rw [hc0]
  exact (hperm.mem_iff).mp hc

/-- Totality with arbitrary validator bounds: every genLoop run from an
__init__-configured state returns a grid carrying the caller metadata. -/
theorem genLoop_total (o : Oracle) (s : ℕ) (p : ℚ) (k : ℤ) (minc maxc : ℤ) :
    ∀ (fuel current_seed : ℕ) (last : Option (List (List PuzzleCell))),
      (last.isSome = true ∨ 1 ≤ fuel) →
      ∃ g : PuzzleGrid,
        genLoop o (initGen s p k) minc maxc fuel current_seed last = some g ∧
        g.metadata = mkMetadata (initGen s p k) := by
  intro fuel
  induction fuel with
  | zero =>
      intro cs last h
      rcases last with _ | c2
      · rcases h with h | h
        · exact absurd h (by simp)
        · omega
      · exact ⟨⟨c2, mkMetadata (initGen s p k)⟩, rfl, rfl⟩
  | succ fuel ih =>
      intro cs last _
      obtain ⟨flat, cells0, hat, -, -, -, -, -⟩ :=
        attempt_master o (initGen s p k) (initGen_filter_ne s p k) cs
      rw [genLoop_succ, hat]
      dsimp only
      split
      · exact ⟨⟨reshapeToGrid flat, mkMetadata (initGen s p k)⟩, rfl, rfl⟩
      · exact ih _ (some (reshapeToGrid flat)) (Or.inl rfl)

theorem generateWith_total (o : Oracle) (minc maxc : ℤ) (s : ℕ) (p : ℚ)
    (k : ℤ) :
    ∃ g : PuzzleGrid,
      generateWith o minc maxc (initGen s p k) = some g ∧
      g.metadata = mkMetadata (initGen s p k) := by
  have h := genLoop_total o s p k minc maxc MAX_RETRIES (initGen s p k).seed
    none (Or.inr (by norm_num [MAX_RETRIES]))
  exact h

end ColorFocus

namespace ColorFocus

/-- Word assignment only observes the congruence target through the strict
comparison of a [0,1) draw, so two targets with the same comparison behavior
produce identical cells. -/
theorem assignWords_congr (o : Oracle) (st1 st2 : GenState)
    (hcol : st1.colors = st2.colors)
    (hcmp : ∀ q : ℚ, 0 ≤ q → q < 1 →
      ((q < st1.congruence_percentage) ↔ (q < st2.congruence_percentage))) :
    ∀ (inks : List ColorToken) (rng : RngState),
      assignWords o st1 inks rng = assignWords o st2 inks rng := by
  intro inks
  induction inks with
  | nil => intro rng; rfl
  | cons ink rest ih =>
      intro rng
      simp only [assignWords]
      have hq := hcmp (randFloat o rng).1 (clamp01_nonneg _) (clamp01_lt_one _)
      by_cases hu : (randFloat o rng).1 < st1.congruence_percentage
      · rw [if_pos hu, if_pos (hq.mp hu), ih]
      · rw [if_neg hu, if_neg (fun h => hu (hq.mpr h)), hcol]
        rcases hch : choiceColor o (st2.colors.filter (fun c => c ≠ ink))
            (randFloat o rng).2 with _ | wr
        · rfl
        · dsimp only
          rw [ih]

theorem attemptCells_congr (o : Oracle) (s : ℕ) (p1 p2 : ℚ) (k : ℤ)
    (hcmp : ∀ q : ℚ, 0 ≤ q → q < 1 → ((q < p1) ↔ (q < p2))) (seed : ℕ) :
    attemptCells o (initGen s p1 k) seed = attemptCells o (initGen s p2 k) seed := by
  have hcr : createInkDistribution o (initGen s p1 k) ⟨seed, 0⟩
      = createInkDistribution o (initGen s p2 k) ⟨seed, 0⟩ := rfl
  have hasg := assignWords_congr o (initGen s p1 k) (initGen s p2 k) rfl hcmp
  show (match assignWords o (initGen s p1 k)
      (createInkDistribution o (initGen s p1 k) ⟨seed, 0⟩).1
      (createInkDistribution o (initGen s p1 k) ⟨seed, 0⟩).2 with
    | none => none
    | some cellsr =>
        some (reshapeToGrid (optimizeStroopInterference o
          (shuffleL o cellsr.1 cellsr.2).1 8
          (shuffleL o cellsr.1 cellsr.2).2).1)) = _
  rw [hasg]
  rfl

theorem generate_cells_congr (o : Oracle) (s : ℕ) (p1 p2 : ℚ) (k : ℤ)
    (hcmp : ∀ q : ℚ, 0 ≤ q → q < 1 → ((q < p1) ↔ (q < p2))) :
    (generate o (initGen s p1 k)).map (·.cells)
      = (generate o (initGen s p2 k)).map (·.cells) := by
  rw [generate_first, generate_first, attemptCells_congr o s p1 p2 k hcmp s,
    Option.map_map, Option.map_map]
  rfl

end ColorFocus

namespace ColorFocus

/-- All-zero oracle, used to instantiate universally quantified theorems at a
concrete RNG behavior. -/
def oZero : Oracle := ⟨fun _ _ => 0, fun _ _ => 0⟩

/-- Whether the attempt started from a given derived seed passes the
distribution validator (false as well when the attempt itself fails). -/
def attemptIsValid (o : Oracle) (st : GenState) (min_count max_count : ℤ)
    (seed : ℕ) : Bool :=
  match attemptCells o st seed with
  | none => false
  | some cells_2d =>
      (validate min_count max_count (countInkColors cells_2d)
        (some st.colors)).is_valid

/-- The cell of an optional grid at (row, col), for pointwise comparison. -/
def cellAt (g : Option PuzzleGrid) (r c : ℕ) : Option PuzzleCell :=
  g.map (fun grid => (grid.cells.getD r []).getD c dummyCell)

/-- Claim C1: generation is deterministic.  In this embedding every piece of
state the source consults — the stored constructor arguments and the RNG,
which is rebuilt from the current seed on each attempt — is an explicit
input, so a generator instance is the value initGen s p k and generate is a
pure function of it and of the oracle: two calls on one instance, or on two
instances built from the same arguments, are the same value, pointwise on
every cell and on the metadata. -/
theorem C1_determinism (o : Oracle) (s : ℕ) (p : ℚ) (k : ℤ) (r c : ℕ) :
    generate o (initGen s p k) = generate o (initGen s p k) ∧
    cellAt (generate o (initGen s p k)) r c
      = cellAt (generate o (initGen s p k)) r c ∧
    (generate o (initGen s p k)).map (·.metadata)
      = (generate o (initGen s p k)).map (·.metadata) :=
  ⟨rfl, rfl, rfl⟩

/-- Claim C2: on every returned grid the i-th active token appears as
ink_color exactly ⌊64/K⌋ + 1 times when i < 64 mod K and ⌊64/K⌋ times
otherwise, for the clamped color count K. -/
theorem C2_balanced_ink (o : Oracle) (s : ℕ) (p : ℚ) (k : ℤ) (i : ℕ)
    (hi : i < (initGen s p k).color_count) :
    (generate o (initGen s p k)).map (fun g =>
      ((g.cells.map (fun row => row.map (·.ink_color))).flatten).count
        ((initGen s p k).colors.getD i .BLACK))
      = some (64 / (initGen s p k).color_count +
          if i < 64 % (initGen s p k).color_count then 1 else 0) := by
  obtain ⟨flat, hat, hlen, hcnt⟩ := attempt_counts o s p k s
  rw [generate_first, hat]
  simp only [Option.map_some', Option.some.injEq]
  rw [← countsGet_countInkColors, hcnt]
  have hK := perK_facts (initGen s p k).color_count
    (initGen_cc_lower s p k) (initGen_cc_upper s p k)
  have hcount := hK.2.2.2.1 i hi
  rw [initGen_colors]
  exact hcount

theorem C2_balanced_ink_witness :
    0 < (initGen 0 1 4).color_count ∧
    (generate oZero (initGen 0 1 4)).map (fun g =>
      ((g.cells.map (fun row => row.map (·.ink_color))).flatten).count
        ((initGen 0 1 4).colors.getD 0 .BLACK)) = some 16 :=
  ⟨by decide, (C2_balanced_ink oZero 0 1 4 0 (by decide)).trans (by decide)⟩

/-- Claim C4: the optimizer returns a permutation of its input, so both the
word multiset and the ink multiset are preserved exactly; cells move
wholesale.  (The source copies the input list before mutating, and this
embedding is pure, so the caller's list is untouched.) -/
theorem C4_optimizer_preserves (o : Oracle) (cells : List PuzzleCell)
    (grid_size : ℕ) (rng : RngState) :
    ((optimizeStroopInterference o cells grid_size rng).1).Perm cells ∧
    (((optimizeStroopInterference o cells grid_size rng).1).map
      (·.word)).Perm (cells.map (·.word)) ∧
    (((optimizeStroopInterference o cells grid_size rng).1).map
      (·.ink_color)).Perm (cells.map (·.ink_color)) :=
  ⟨optimize_perm o cells grid_size rng,
   (optimize_perm o cells grid_size rng).map _,
   (optimize_perm o cells grid_size rng).map _⟩

/-- Claim C6: with congruence 0 every cell of the returned grid has
word ≠ ink_color; with congruence 1 every cell has word = ink_color. -/
theorem C6_congruence_extremes (o : Oracle) (s : ℕ) (k : ℤ) :
    ((generate o (initGen s 0 k)).map (fun g =>
        g.cells.flatten.all (fun c => decide (c.word ≠ c.ink_color)))
      = some true) ∧
    ((generate o (initGen s 1 k)).map (fun g =>
        g.cells.flatten.all (fun c => decide (c.word = c.ink_color)))
      = some true) := by
  constructor
  · obtain ⟨flat, hat, hlen, hP⟩ := attempt_mem_prop o s 0 k s
      (fun c => c.word ≠ c.ink_color)
      (assignWords_mem_incongruent o (initGen s 0 k) (le_refl 0))
    rw [generate_first, hat]
    simp only [Option.map_some', Option.some.injEq]
    rw [reshape_flatten flat hlen, List.all_eq_true]
    intro c hc
    exact decide_eq_true (hP c hc)
  · obtain ⟨flat, hat, hlen, hP⟩ := attempt_mem_prop o s 1 k s
      (fun c => c.word = c.ink_color)
      (assignWords_mem_congruent o (initGen s 1 k) (le_refl 1))
    rw [generate_first, hat]
    simp only [Option.map_some', Option.some.injEq]
    rw [reshape_flatten flat hlen, List.all_eq_true]
    intro c hc
    exact decide_eq_true (hP c hc)

/-- Claim C9: the validator accepts iff every active token count (0 when
missing) lies in [min_count, max_count]; each violating active token
contributes exactly one issue, and only active tokens are inspected. -/
theorem C9_validator_semantics (min_count max_count : ℤ)
    (counts : List (ColorToken × ℕ)) (active : List ColorToken) :
    ((validate min_count max_count counts (some active)).is_valid = true ↔
      ∀ t ∈ active, min_count ≤ (countsGet counts t : ℤ) ∧
        (countsGet counts t : ℤ) ≤ max_count) ∧
    (validate min_count max_count counts (some active)).issues.length =
      (active.filter (outOfBounds min_count max_count counts)).length :=
  ⟨validate_is_valid_iff min_count max_count counts active,
   validate_issues_length min_count max_count counts active⟩

/-- Claim C10: the retry machinery of generate is unreachable — the first
attempt always passes the distribution validator, since every active ink
count is ⌊64/K⌋ or ⌊64/K⌋ + 1 while the bounds allow a tolerance of at
least 2; hence generate always returns the first attempt with the caller
metadata and the exhaustion warning never fires. -/
theorem C10_retry_unreachable (o : Oracle) (s : ℕ) (p : ℚ) (k : ℤ) :
    ((attemptCells o (initGen s p k) s).map
      (fun c2 => (validate (initGen s p k).min_count
        (initGen s p k).max_count (countInkColors c2)
        (some (initGen s p k).colors)).is_valid) = some true) ∧
    generate o (initGen s p k)
      = (attemptCells o (initGen s p k) s).map
          (fun c2 => ⟨c2, mkMetadata (initGen s p k)⟩) := by
  obtain ⟨flat, hat, -, -⟩ := attempt_counts o s p k s
  constructor
  · rw [hat]
    simp only [Option.map_some', Option.some.injEq]
    exact attempt_valid o s p k s hat
  · exact generate_first o s p k

end ColorFocus

namespace ColorFocus

/-- Claim C8: the returned metadata.seed is the caller-supplied seed on every
return path — with arbitrary validator bounds, so both the success and the
exhaustion paths are covered — and the internal retry-seed derivation is
(old * 31 + attempt) mod 2^31. -/
theorem C8_seed_stability (o : Oracle) (minc maxc : ℤ) (s : ℕ) (p : ℚ)
    (k : ℤ) :
    ((generateWith o minc maxc (initGen s p k)).map (·.metadata.seed)
      = some s) ∧
    (∀ original_seed attempt : ℕ,
      deriveNewSeed original_seed attempt
        = (original_seed * 31 + attempt) % 2 ^ 31) := by
  constructor
  · obtain ⟨g, hg, hm⟩ := generateWith_total o minc maxc s p k
    rw [hg]
    simp only [Option.map_some', Option.some.injEq]
    rw [hm]
    rfl
  · intro original_seed attempt
    rfl

/-- Claim C5: generation never fails the caller.  generate always returns a
grid, and so does the loop under any validator bounds; and when the attempts
from the caller seed and from the two derived retry seeds all fail
validation, the grid of the last (third) attempt is returned, carrying the
caller metadata; only a warning is logged and no error value reaches the
caller. -/
theorem C5_never_fails (o : Oracle) (minc maxc : ℤ) (s : ℕ) (p : ℚ)
    (k : ℤ) :
    (∃ g : PuzzleGrid, generate o (initGen s p k) = some g) ∧
    (∃ g : PuzzleGrid, generateWith o minc maxc (initGen s p k) = some g) ∧
    (attemptIsValid o (initGen s p k) minc maxc s = false →
     attemptIsValid o (initGen s p k) minc maxc (deriveNewSeed s 1) = false →
     attemptIsValid o (initGen s p k) minc maxc
       (deriveNewSeed (deriveNewSeed s 1) 2) = false →
     generateWith o minc maxc (initGen s p k)
       = (attemptCells o (initGen s p k)
           (deriveNewSeed (deriveNewSeed s 1) 2)).map
           (fun c2 => ⟨c2, mkMetadata (initGen s p k)⟩)) := by
  refine ⟨?_, ?_, ?_⟩
  · obtain ⟨g, hg, -⟩ := generateWith_total o (initGen s p k).min_count
      (initGen s p k).max_count s p k
    exact ⟨g, hg⟩
  · obtain ⟨g, hg, -⟩ := generateWith_total o minc maxc s p k
    exact ⟨g, hg⟩
  · intro h0 h1 h2
    obtain ⟨flat0, cells00, hat0, -, -, -, -, -⟩ :=
      attempt_master o (initGen s p k) (initGen_filter_ne s p k) s
    obtain ⟨flat1, cells01, hat1, -, -, -, -, -⟩ :=
      attempt_master o (initGen s p k) (initGen_filter_ne s p k)
        (deriveNewSeed s 1)
    obtain ⟨flat2, cells02, hat2, -, -, -, -, -⟩ :=
      attempt_master o (initGen s p k) (initGen_filter_ne s p k)
        (deriveNewSeed (deriveNewSeed s 1) 2)
    have hv0 : (validate minc maxc (countInkColors (reshapeToGrid flat0))
        (some (initGen s p k).colors)).is_valid = false := by
      unfold attemptIsValid at h0
      rw [hat0] at h0
      exact h0
    have hv1 : (validate minc maxc (countInkColors (reshapeToGrid flat1))
        (some (initGen s p k).colors)).is_valid = false := by
      unfold attemptIsValid at h1
      rw [hat1] at h1
      exact h1
    have hv2 : (validate minc maxc (countInkColors (reshapeToGrid flat2))
        (some (initGen s p k).colors)).is_valid = false := by
      unfold attemptIsValid at h2
      rw [hat2] at h2
      exact h2
    calc generateWith o minc maxc (initGen s p k)
        = genLoop o (initGen s p k) minc maxc (2 + 1) s none := rfl
      _ = genLoop o (initGen s p k) minc maxc (1 + 1) (deriveNewSeed s 1)
            (some (reshapeToGrid flat0)) := by
          rw [genLoop_succ, hat0]
          dsimp only
          rw [hv0, if_neg Bool.false_ne_true]
          rfl
      _ = genLoop o (initGen s p k) minc maxc (0 + 1)
            (deriveNewSeed (deriveNewSeed s 1) 2)
            (some (reshapeToGrid flat1)) := by
          rw [genLoop_succ, hat1]
          dsimp only
          rw [hv1, if_neg Bool.false_ne_true]
          rfl
      _ = genLoop o (initGen s p k) minc maxc 0
            (deriveNewSeed (deriveNewSeed (deriveNewSeed s 1) 2) 3)
            (some (reshapeToGrid flat2)) := by
          rw [genLoop_succ, hat2]
          dsimp only
          rw [hv2, if_neg Bool.false_ne_true]
          rfl
      _ = (attemptCells o (initGen s p k)
            (deriveNewSeed (deriveNewSeed s 1) 2)).map
            (fun c2 => ⟨c2, mkMetadata (initGen s p k)⟩) := by
          rw [hat2]
          rfl

set_option maxRecDepth 200000 in
theorem C5_never_fails_witness :
    (∃ g : PuzzleGrid, generate oZero (initGen 5 1 4) = some g) ∧
    (∃ g : PuzzleGrid, generateWith oZero 100 200 (initGen 5 1 4) = some g) ∧
    generateWith oZero 100 200 (initGen 5 1 4)
      = (attemptCells oZero (initGen 5 1 4)
          (deriveNewSeed (deriveNewSeed 5 1) 2)).map
          (fun c2 => ⟨c2, mkMetadata (initGen 5 1 4)⟩) :=
  ⟨(C5_never_fails oZero 100 200 5 1 4).1,
   (C5_never_fails oZero 100 200 5 1 4).2.1,
   (C5_never_fails oZero 100 200 5 1 4).2.2 (by decide) (by decide) (by decide)⟩

end ColorFocus

namespace ColorFocus

set_option maxRecDepth 200000 in
/-- Claim C7 counterexample: the constructor does NOT clamp
congruence_percentage.  A generator built with p = 2 emits metadata whose
congruence field is 2, outside [0,1], refuting the claim that out-of-range p
is clamped before use and that emitted metadata congruence lies in [0,1]. -/
theorem C7_clamping_counterexample :
    (generate oZero (initGen 7 2 4)).map (·.metadata.congruence_percentage)
      = some 2 ∧ ¬ ((2 : ℚ) ≤ 1) :=
  ⟨by decide, by decide⟩

/-- Claim C7 (amended): color_count is clamped to [2,8] as claimed, and no
input is rejected; but congruence_percentage is not clamped — it is stored
and emitted in the metadata exactly as supplied (possibly outside [0,1]).
Only the cell contents behave as if p had been clamped to [0,1], because the
strict < comparison against a [0,1) draw saturates. -/
theorem C7_clamping_amended (o : Oracle) (s : ℕ) (p : ℚ) (k : ℤ) :
    ((initGen s p k).color_count = (max 2 (min 8 k)).toNat ∧
      2 ≤ (initGen s p k).color_count ∧ (initGen s p k).color_count ≤ 8) ∧
    ((generate o (initGen s p k)).map (·.metadata.congruence_percentage)
      = some p) ∧
    ((generate o (initGen s p k)).map (·.cells)
      = (generate o (initGen s (max 0 (min 1 p)) k)).map (·.cells)) := by
  refine ⟨⟨rfl, initGen_cc_lower s p k, initGen_cc_upper s p k⟩, ?_, ?_⟩
  · obtain ⟨g, hg, hm⟩ := generateWith_total o (initGen s p k).min_count
      (initGen s p k).max_count s p k
    show (generateWith o (initGen s p k).min_count (initGen s p k).max_count
      (initGen s p k)).map (·.metadata.congruence_percentage) = some p
    rw [hg]
    simp only [Option.map_some', Option.some.injEq]
    rw [hm]
    rfl
  · refine generate_cells_congr o s p (max 0 (min 1 p)) k ?_
    intro q h0 h1
    constructor
    · intro h
      exact lt_of_lt_of_le (lt_min h1 h) (le_max_right _ _)
    · intro h
      rcases le_or_lt (min 1 p) 0 with hle | hlt
      · rw [max_eq_left hle] at h
        exact absurd h (not_lt.mpr h0)
      · rw [max_eq_right (le_of_lt hlt)] at h
        exact lt_of_lt_of_le h (min_le_right 1 p)

end ColorFocus

namespace ColorFocus

/-! ### The global interference objective and the swap delta

The specification defines the global score as the sum of _interference_at
over all flat indices.  The lemmas below justify the local-delta acceptance
test: within a grid (length at most grid_size^2) the guarded adjacency
relation is symmetric, so a swap changes the global score by exactly twice
its local delta. -/

/-- The contribution of an ordered cell pair: my ink matches the neighbor's
word, plus the neighbor's ink matches my word. -/
def cellW (a b : PuzzleCell) : ℕ :=
  (if a.ink_color = b.word then 1 else 0) +
    (if b.ink_color = a.word then 1 else 0)

theorem cellW_symm (a b : PuzzleCell) : cellW a b = cellW b a :=
  Nat.add_comm _ _

theorem foldl_guard_sum (cell : PuzzleCell) (cells : List PuzzleCell) :
    ∀ (L : List ℕ) (acc : ℕ),
      L.foldl (fun count adj_idx =>
        if adj_idx < cells.length then
          count + (if cell.ink_color =
              (cells.getD adj_idx dummyCell).word then 1 else 0)
            + (if (cells.getD adj_idx dummyCell).ink_color =
              cell.word then 1 else 0)
        else count) acc
      = acc + (L.map (fun a => if a < cells.length
          then cellW cell (cells.getD a dummyCell) else 0)).sum := by
  intro L
  induction L with
  | nil => intro acc; simp
  | cons a L ih =>
      intro acc
      rw [List.foldl_cons, List.map_cons, List.sum_cons]
      by_cases h : a < cells.length
      · rw [if_pos h, if_pos h, ih]
        unfold cellW
        omega
      · rw [if_neg h, if_neg h, ih]
        omega

theorem interferenceAt_eq_sum (cells : List PuzzleCell) (idx g : ℕ) :
    interferenceAt cells idx g =
      ((getAdjacentIndices idx g).map (fun a =>
        if a < cells.length
        then cellW (cells.getD idx dummyCell) (cells.getD a dummyCell)
        else 0)).sum := by
  unfold interferenceAt
  rw [foldl_guard_sum, Nat.zero_add]

theorem mem_ite_singleton {a v : ℕ} {c : Prop} [Decidable c] :
    a ∈ (if c then [v] else []) ↔ c ∧ a = v := by
  split
  · next h => simp [h]
  · next h => simp [h]

theorem mem_getAdjacentIndices {y x g : ℕ} :
    y ∈ getAdjacentIndices x g ↔
      (0 < x / g ∧ y = x - g) ∨ (x / g < g - 1 ∧ y = x + g) ∨
      (0 < x % g ∧ y = x - 1) ∨ (x % g < g - 1 ∧ y = x + 1) := by
  unfold getAdjacentIndices
  simp only [List.mem_append, mem_ite_singleton]
  tauto

theorem not_mem_adj_self (x g : ℕ) : x ∉ getAdjacentIndices x g := by
  rw [mem_getAdjacentIndices]
  intro h
  rcases h with ⟨h1, h2⟩ | ⟨h1, h2⟩ | ⟨h1, h2⟩ | ⟨h1, h2⟩
  · rcases Nat.eq_zero_or_pos g with rfl | hg
    · simp [Nat.div_zero] at h1
    · have hgx : g ≤ x := (Nat.one_le_div_iff hg).mp h1
      omega
  · rcases Nat.eq_zero_or_pos g with rfl | hg
    · simp [Nat.div_zero] at h1
    · omega
  · have := Nat.mod_le x g
    omega
  · omega

end ColorFocus

namespace ColorFocus

theorem decomp_div {g q r : ℕ} (hg : 0 < g) (hr : r < g) :
    (g * q + r) / g = q := by
  rw [Nat.mul_add_div hg, Nat.div_eq_of_lt hr, Nat.add_zero]

theorem decomp_mod {g q r : ℕ} (hr : r < g) : (g * q + r) % g = r := by
  rw [Nat.mul_add_mod, Nat.mod_eq_of_lt hr]

theorem getAdjacentIndices_nodup (x g : ℕ) :
    (getAdjacentIndices x g).Nodup := by
  rcases Nat.eq_zero_or_pos g with rfl | hg
  · unfold getAdjacentIndices
    simp only [Nat.div_zero, Nat.mod_zero]
    split_ifs <;> simp_all
  · obtain ⟨q, r, hr, hx⟩ : ∃ q r, r < g ∧ x = g * q + r :=
      ⟨x / g, x % g, Nat.mod_lt x hg, (Nat.div_add_mod x g).symm⟩
    have hq : x / g = q := by rw [hx, decomp_div hg hr]
    have hrr : x % g = r := by rw [hx, decomp_mod hr]
    have f1 : q = 0 ∨ (g ≤ x ∧ 1 ≤ g) := by
      rcases Nat.eq_zero_or_pos q with h | h
      · exact Or.inl h
      · refine Or.inr ⟨?_, hg⟩
        have h2 : g * 1 ≤ g * q := Nat.mul_le_mul_left g h
        omega
    have f2 : r = 0 ∨ g ≠ 1 := by
      rcases Nat.eq_zero_or_pos r with h | h
      · exact Or.inl h
      · right
        intro h1
        omega
    unfold getAdjacentIndices
    rw [hq, hrr]
    dsimp only
    split_ifs <;> simp <;> omega

theorem adj_symm {g x y : ℕ} (hx : x < g * g) (hy : y < g * g) :
    y ∈ getAdjacentIndices x g → x ∈ getAdjacentIndices y g := by
  intro hmem
  have hg : 0 < g := by
    rcases Nat.eq_zero_or_pos g with rfl | h
    · omega
    · exact h
  obtain ⟨q, r, hr, hx_eq⟩ : ∃ q r, r < g ∧ x = g * q + r :=
    ⟨x / g, x % g, Nat.mod_lt x hg, (Nat.div_add_mod x g).symm⟩
  have hq : x / g = q := by rw [hx_eq, decomp_div hg hr]
  have hrr : x % g = r := by rw [hx_eq, decomp_mod hr]
  have hqg : q < g := by
    rw [← hq]
    exact (Nat.div_lt_iff_lt_mul hg).mpr hx
  rw [mem_getAdjacentIndices, hq, hrr] at hmem
  rw [mem_getAdjacentIndices]
  rcases hmem with ⟨h1, rfl⟩ | ⟨h1, rfl⟩ | ⟨h1, rfl⟩ | ⟨h1, rfl⟩
  · have hgx : g ≤ x := by
      have h2 : g * 1 ≤ g * q := Nat.mul_le_mul_left g h1
      omega
    have hmul : g * q = g * (q - 1) + g := by
      have he : q - 1 + 1 = q := by omega
      calc g * q = g * (q - 1 + 1) := by rw [he]
        _ = g * (q - 1) + g := by ring
    have hy_eq : x - g = g * (q - 1) + r := by omega
    rw [hy_eq, decomp_div hg hr, decomp_mod hr]
    exact Or.inr (Or.inl ⟨by omega, by omega⟩)
  · have hmul : g * (q + 1) = g * q + g := by ring
    have hy_eq : x + g = g * (q + 1) + r := by omega
    rw [hy_eq, decomp_div hg hr, decomp_mod hr]
    exact Or.inl ⟨by omega, by omega⟩
  · have hr1 : r - 1 < g := by omega
    have hy_eq : x - 1 = g * q + (r - 1) := by omega
    rw [hy_eq, decomp_div hg hr1, decomp_mod hr1]
    exact Or.inr (Or.inr (Or.inr ⟨by omega, by omega⟩))
  · have hr1 : r + 1 < g := by omega
    have hy_eq : x + 1 = g * q + (r + 1) := by omega
    rw [hy_eq, decomp_div hg hr1, decomp_mod hr1]
    exact Or.inr (Or.inr (Or.inl ⟨by omega, by omega⟩))

end ColorFocus

namespace ColorFocus

/-- Indicator form of one guarded adjacency contribution. -/
def adjW (cells : List PuzzleCell) (g x y : ℕ) : ℕ :=
  if y ∈ getAdjacentIndices x g ∧ y < cells.length
  then cellW (cells.getD x dummyCell) (cells.getD y dummyCell) else 0

theorem interferenceAt_eq_fsum (cells : List PuzzleCell) (x g : ℕ) :
    interferenceAt cells x g
      = ∑ y in Finset.range cells.length, adjW cells g x y := by
  classical
  rw [interferenceAt_eq_sum]
  have hnd := getAdjacentIndices_nodup x g
  have hW : ∀ y, adjW cells g x y
      = if y ∈ (getAdjacentIndices x g).toFinset
        then (if y < cells.length
          then cellW (cells.getD x dummyCell) (cells.getD y dummyCell) else 0)
        else 0 := by
    intro y
    by_cases h1 : y ∈ getAdjacentIndices x g <;>
      by_cases h2 : y < cells.length <;>
      simp [adjW, h1, h2, List.mem_toFinset]
  calc ((getAdjacentIndices x g).map (fun a =>
        if a < cells.length
        then cellW (cells.getD x dummyCell) (cells.getD a dummyCell)
        else 0)).sum
      = ∑ y in (getAdjacentIndices x g).toFinset,
          (if y < cells.length
           then cellW (cells.getD x dummyCell) (cells.getD y dummyCell)
           else 0) := (List.sum_toFinset _ hnd).symm
    _ = ∑ y in Finset.range cells.length ∩ (getAdjacentIndices x g).toFinset,
          (if y < cells.length
           then cellW (cells.getD x dummyCell) (cells.getD y dummyCell)
           else 0) := by
        refine (Finset.sum_subset (Finset.inter_subset_right) ?_).symm
        intro y hy hny
        have : ¬ y < cells.length := by
          intro hlt
          exact hny (Finset.mem_inter.mpr ⟨Finset.mem_range.mpr hlt, hy⟩)
        rw [if_neg this]
    _ = ∑ y in Finset.range cells.length,
          (if y ∈ (getAdjacentIndices x g).toFinset
           then (if y < cells.length
             then cellW (cells.getD x dummyCell) (cells.getD y dummyCell)
             else 0)
           else 0) := (Finset.sum_ite_mem _ _ _).symm
    _ = ∑ y in Finset.range cells.length, adjW cells g x y := by
        refine Finset.sum_congr rfl fun y _ => ?_
        rw [hW y]

theorem globalInterference_eq (cells : List PuzzleCell) (g : ℕ) :
    globalInterference cells g
      = ∑ x in Finset.range cells.length, interferenceAt cells x g := rfl

theorem global_decomp (c : List PuzzleCell) (g : ℕ) {i j : ℕ} (hij : i ≠ j)
    (hi : i < c.length) (hj : j < c.length) (hlen : c.length ≤ g * g) :
    globalInterference c g + adjW c g i i + adjW c g i j + adjW c g j j
        + adjW c g j i
      = 2 * (interferenceAt c i g + interferenceAt c j g)
        + ∑ x in ((Finset.range c.length).erase i).erase j,
            ∑ y in ((Finset.range c.length).erase i).erase j, adjW c g x y := by
  classical
  have hiR : i ∈ Finset.range c.length := Finset.mem_range.mpr hi
  have hjR : j ∈ (Finset.range c.length).erase i :=
    Finset.mem_erase.mpr ⟨Ne.symm hij, Finset.mem_range.mpr hj⟩
  have hsplit : ∀ f : ℕ → ℕ, ∑ y in Finset.range c.length, f y
      = f i + f j
        + ∑ y in ((Finset.range c.length).erase i).erase j, f y := by
    intro f
    rw [← Finset.add_sum_erase _ f hiR, ← Finset.add_sum_erase _ f hjR]
    omega
  have hRsub : ∀ x, x ∈ ((Finset.range c.length).erase i).erase j →
      x ∈ Finset.range c.length := fun x hx =>
    Finset.mem_of_mem_erase (Finset.mem_of_mem_erase hx)
  have hsymW : ∀ x ∈ Finset.range c.length, ∀ y ∈ Finset.range c.length,
      adjW c g x y = adjW c g y x := by
    intro x hx y hy
    rw [Finset.mem_range] at hx hy
    unfold adjW
    by_cases hmem : y ∈ getAdjacentIndices x g
    · have hmem' : x ∈ getAdjacentIndices y g :=
        adj_symm (lt_of_lt_of_le hx hlen) (lt_of_lt_of_le hy hlen) hmem
      rw [if_pos ⟨hmem, hy⟩, if_pos ⟨hmem', hx⟩, cellW_symm]
    · have hmem' : x ∉ getAdjacentIndices y g := fun h =>
        hmem (adj_symm (lt_of_lt_of_le hy hlen) (lt_of_lt_of_le hx hlen) h)
      rw [if_neg (fun h => hmem h.1), if_neg (fun h => hmem' h.1)]
  have e1 : interferenceAt c i g = adjW c g i i + adjW c g i j
      + ∑ y in ((Finset.range c.length).erase i).erase j, adjW c g i y := by
    rw [interferenceAt_eq_fsum]
    exact hsplit _
  have e2 : interferenceAt c j g = adjW c g j i + adjW c g j j
      + ∑ y in ((Finset.range c.length).erase i).erase j, adjW c g j y := by
    rw [interferenceAt_eq_fsum]
    exact hsplit _
  have e3 : globalInterference c g
      = interferenceAt c i g + interferenceAt c j g
        + ∑ x in ((Finset.range c.length).erase i).erase j,
            interferenceAt c x g := by
    rw [globalInterference_eq]
    exact hsplit _
  have e4 : ∑ x in ((Finset.range c.length).erase i).erase j,
      interferenceAt c x g
      = (∑ x in ((Finset.range c.length).erase i).erase j, adjW c g x i)
        + (∑ x in ((Finset.range c.length).erase i).erase j, adjW c g x j)
        + ∑ x in ((Finset.range c.length).erase i).erase j,
            ∑ y in ((Finset.range c.length).erase i).erase j, adjW c g x y := by
    rw [← Finset.sum_add_distrib, ← Finset.sum_add_distrib]
    refine Finset.sum_congr rfl fun x _ => ?_
    rw [interferenceAt_eq_fsum]
    exact hsplit _
  have e5 : ∑ x in ((Finset.range c.length).erase i).erase j, adjW c g x i
      = ∑ y in ((Finset.range c.length).erase i).erase j, adjW c g i y :=
    Finset.sum_congr rfl fun x hx => hsymW x (hRsub x hx) i hiR
  have e6 : ∑ x in ((Finset.range c.length).erase i).erase j, adjW c g x j
      = ∑ y in ((Finset.range c.length).erase i).erase j, adjW c g j y :=
    Finset.sum_congr rfl fun x hx =>
      hsymW x (hRsub x hx) j (Finset.mem_range.mpr hj)
  omega

end ColorFocus

namespace ColorFocus

theorem adjW_swap_outside (c : List PuzzleCell) (g : ℕ) {i j x y : ℕ}
    (hx1 : x ≠ i) (hx2 : x ≠ j) (hy1 : y ≠ i) (hy2 : y ≠ j) :
    adjW (swapL c i j) g x y = adjW c g x y := by
  unfold adjW
  rw [swapL_length, swapL_getD_of_ne c hx1 hx2, swapL_getD_of_ne c hy1 hy2]

theorem adjW_swap_pair (c : List PuzzleCell) (g : ℕ) {i j : ℕ}
    (hi : i < c.length) (hj : j < c.length) :
    adjW (swapL c i j) g i j = adjW c g i j := by
  unfold adjW
  rw [swapL_length, swapL_getD_fst c hi hj, swapL_getD_snd c hi hj,
    cellW_symm]

theorem adjW_swap_pair' (c : List PuzzleCell) (g : ℕ) {i j : ℕ}
    (hi : i < c.length) (hj : j < c.length) :
    adjW (swapL c i j) g j i = adjW c g j i := by
  unfold adjW
  rw [swapL_length, swapL_getD_fst c hi hj, swapL_getD_snd c hi hj,
    cellW_symm]

theorem adjW_diag_zero (c : List PuzzleCell) (g x : ℕ) : adjW c g x x = 0 := by
  unfold adjW
  rw [if_neg (fun h => not_mem_adj_self x g h.1)]

theorem global_swap_step (c : List PuzzleCell) (g : ℕ) {i j : ℕ}
    (hij : i ≠ j) (hi : i < c.length) (hj : j < c.length)
    (hlen : c.length ≤ g * g) :
    globalInterference (swapL c i j) g
        + 2 * (interferenceAt c i g + interferenceAt c j g)
      = globalInterference c g
        + 2 * (interferenceAt (swapL c i j) i g
            + interferenceAt (swapL c i j) j g) := by
  have hd1 := global_decomp c g hij hi hj hlen
  have hi' : i < (swapL c i j).length := by rw [swapL_length]; exact hi
  have hj' : j < (swapL c i j).length := by rw [swapL_length]; exact hj
  have hlen' : (swapL c i j).length ≤ g * g := by
    rw [swapL_length]; exact hlen
  have hd2 := global_decomp (swapL c i j) g hij hi' hj' hlen'
  rw [swapL_length] at hd2
  have hU : ∑ x in ((Finset.range c.length).erase i).erase j,
      ∑ y in ((Finset.range c.length).erase i).erase j,
        adjW (swapL c i j) g x y
      = ∑ x in ((Finset.range c.length).erase i).erase j,
          ∑ y in ((Finset.range c.length).erase i).erase j, adjW c g x y := by
    refine Finset.sum_congr rfl fun x hx => Finset.sum_congr rfl fun y hy => ?_
    have hx2 : x ≠ j := (Finset.mem_erase.mp hx).1
    have hx1 : x ≠ i := (Finset.mem_erase.mp (Finset.mem_of_mem_erase hx)).1
    have hy2 : y ≠ j := (Finset.mem_erase.mp hy).1
    have hy1 : y ≠ i := (Finset.mem_erase.mp (Finset.mem_of_mem_erase hy)).1
    exact adjW_swap_outside c g hx1 hx2 hy1 hy2
  have hWij := adjW_swap_pair c g hi hj
  have hWji := adjW_swap_pair' c g hi hj
  have hWii := adjW_diag_zero (swapL c i j) g i
  have hWjj := adjW_diag_zero (swapL c i j) g j
  have hWii' := adjW_diag_zero c g i
  have hWjj' := adjW_diag_zero c g j
  omega

theorem global_swap_mono (c : List PuzzleCell) (g : ℕ) {i j : ℕ}
    (hij : i ≠ j) (hi : i < c.length) (hj : j < c.length)
    (hlen : c.length ≤ g * g)
    (hgain : interferenceAt c i g + interferenceAt c j g
      < interferenceAt (swapL c i j) i g + interferenceAt (swapL c i j) j g) :
    globalInterference c g < globalInterference (swapL c i j) g := by
  have := global_swap_step c g hij hi hj hlen
  omega

end ColorFocus

namespace ColorFocus

/-- Invariant of the sampling loop: the tracked best gain is non-negative,
and a recorded best swap is a genuine in-bounds pair whose local delta on
the unchanged cell list equals that (positive) gain. -/
def scanInv (cells : List PuzzleCell) (g : ℕ)
    (acc : ℤ × Option (ℕ × ℕ)) : Prop :=
  0 ≤ acc.1 ∧
  ∀ i j : ℕ, acc.2 = some (i, j) →
    i ≠ j ∧ i < cells.length ∧ j < cells.length ∧
    (interferenceAt cells i g : ℤ) + (interferenceAt cells j g : ℤ) + acc.1
      = (interferenceAt (swapL cells i j) i g : ℤ)
        + (interferenceAt (swapL cells i j) j g : ℤ) ∧
    0 < acc.1

theorem pairScan_inv (o : Oracle) (cells : List PuzzleCell) (g : ℕ)
    (hlen : 0 < cells.length) :
    ∀ (n : ℕ) (rng : RngState) (acc : ℤ × Option (ℕ × ℕ)),
      scanInv cells g acc →
      scanInv cells g (pairScan o cells g n rng acc).1 := by
  intro n
  induction n with
  | zero => intro rng acc h; exact h
  | succ n ih =>
      intro rng acc hacc
      unfold pairScan
      dsimp only
      split
      · exact ih _ _ hacc
      · next hne =>
          split
          · next hgt =>
              refine ih _ _ ⟨?_, ?_⟩
              · have := hacc.1
                dsimp only
                omega
              · intro i j hij
                dsimp only at hij
                have hi : (randBelow o cells.length rng).1 = i ∧
                    (randBelow o cells.length
                      (randBelow o cells.length rng).2).1 = j := by
                  have := Option.some.inj hij
                  exact ⟨congrArg Prod.fst this, congrArg Prod.snd this⟩
                rcases hi with ⟨rfl1, rfl2⟩
                rw [← rfl1, ← rfl2]
                refine ⟨hne, ?_, ?_, by omega, ?_⟩
                · exact Nat.mod_lt _ hlen
                · exact Nat.mod_lt _ hlen
                · have := hacc.1
                  dsimp only
                  omega
          · exact ih _ _ hacc

end ColorFocus

namespace ColorFocus

theorem optimizeGo_mono (o : Oracle) (g : ℕ) :
    ∀ (n : ℕ) (cells : List PuzzleCell) (rng : RngState),
      cells.length ≤ g * g →
      globalInterference cells g ≤
        globalInterference ((optimizeGo o g n cells rng).1) g := by
  intro n
  induction n with
  | zero => intro cells rng _; exact le_refl _
  | succ n ih =>
      intro cells rng hlen
      unfold optimizeGo
      split
      · next best_gain ij rng1 heq =>
          split
          · next hpos =>
              rcases Nat.eq_zero_or_pos cells.length with hc0 | hc0
              · rw [show min 100 (cells.length * 2) = 0 by omega] at heq
                unfold pairScan at heq
                have : (none : Option (ℕ × ℕ)) = some ij :=
                  congrArg (fun z => z.1.2) heq
                exact Option.noConfusion this
              · have hinv := pairScan_inv o cells g hc0
                  (min 100 (cells.length * 2)) rng (0, none)
                  ⟨le_refl 0, fun i j h => Option.noConfusion h⟩
                rw [heq] at hinv
                obtain ⟨-, hprop⟩ := hinv
                obtain ⟨hne, hi, hj, heqn, hposg⟩ :=
                  hprop ij.1 ij.2 rfl
                have hgain : interferenceAt cells ij.1 g
                    + interferenceAt cells ij.2 g
                    < interferenceAt (swapL cells ij.1 ij.2) ij.1 g
                      + interferenceAt (swapL cells ij.1 ij.2) ij.2 g := by
                  omega
                have hmono := global_swap_mono cells g hne hi hj hlen hgain
                have hrec := ih (swapL cells ij.1 ij.2) rng1
                  (by rw [swapL_length]; exact hlen)
                omega
          · next => exact le_refl _
      · next => exact le_refl _

end ColorFocus

namespace ColorFocus

/-- Oracle driving the counterexample: the first candidate pair is (1, 2),
every later draw is 0 (so i = j and sampling finds nothing further). -/
def oCex : Oracle :=
  ⟨fun _ cursor => if cursor = 0 then 1 else if cursor = 1 then 2 else 0,
   fun _ _ => 0⟩

/-- Counterexample cell list: four cells on a grid_size of 1, so the flat
list is longer than grid_size^2 and the guarded adjacency is asymmetric. -/
def cexCells : List PuzzleCell :=
  [⟨.BLUE, .YELLOW⟩, ⟨.BLACK, .YELLOW⟩, ⟨.ORANGE, .BLUE⟩, ⟨.BLUE, .ORANGE⟩]

/-- Claim C3 counterexample: as stated — over every flat cell list, grid
size and RNG state — optimizer monotonicity is false.  With grid_size 1 and
4 cells, the index chain has each edge counted only once in the global
score, so the local delta at a sampled pair misses the edge into it from
above: the optimizer accepts the swap of positions 1 and 2 (local delta +1)
and the global interference score drops from 2 to 1. -/
theorem C3_optimizer_monotonicity_counterexample :
    globalInterference
        ((optimizeStroopInterference oCex cexCells 1 ⟨0, 0⟩).1) 1
      < globalInterference cexCells 1 := by decide

/-- Claim C3 (amended): optimizer monotonicity holds whenever the flat list
has at most grid_size * grid_size cells — in particular for the generator's
only call, 64 cells with grid_size 8.  Then the guarded adjacency relation
is symmetric, every edge is counted twice in the global score, double counts
cancel in the local delta, and each accepted swap (positive sampled local
delta) strictly increases the global score, so the returned list's global
interference score is at least the input's. -/
theorem C3_optimizer_monotonicity_amended (o : Oracle)
    (cells : List PuzzleCell) (grid_size : ℕ) (rng : RngState)
    (hlen : cells.length ≤ grid_size * grid_size) :
    globalInterference cells grid_size ≤
      globalInterference
        ((optimizeStroopInterference o cells grid_size rng).1) grid_size :=
  optimizeGo_mono o grid_size 50 cells rng hlen

theorem C3_optimizer_monotonicity_amended_witness :
    cexCells.length ≤ 2 * 2 ∧
    globalInterference cexCells 2 ≤
      globalInterference
        ((optimizeStroopInterference oZero cexCells 2 ⟨0, 0⟩).1) 2 :=
  ⟨by decide,
   C3_optimizer_monotonicity_amended oZero cexCells 2 ⟨0, 0⟩ (by decide)⟩

end ColorFocus
